import Mathlib

/-!
Verification development for the profilesearch scraper (search.go).

Strings are modelled as lists of characters (`Str`).  Each definition below
is a shallow embedding of the corresponding Go function; the HTTP and HTML
layers are represented by explicit environment values (the status code and
the parsed content an attempt would yield), so that the control flow of the
Go code can be followed literally.  The email and phone extraction
(extractRegex with emailRegex / phoneRegex) is kept as an abstract
text-to-text parameter, since no verified property depends on the value it
returns, only on where the code stores that value.
-/

/-- Character-list model of Go strings. -/
abbrev Str := List Char

/-- Space test of unicode.IsSpace restricted to the Latin-1 range
(codes 9-13, 32, 0x85, 0xA0); used by strings.TrimSpace. -/
def isGoSpace (c : Char) : Bool :=
  c.toNat = 32 || c.toNat = 9 || c.toNat = 10 || c.toNat = 11 ||
  c.toNat = 12 || c.toNat = 13 || c.toNat = 0x85 || c.toNat = 0xA0

/-- strings.TrimSpace: drop leading and trailing white space. -/
def trimSpace (s : Str) : Str :=
  ((s.dropWhile isGoSpace).reverse.dropWhile isGoSpace).reverse

/-- Character class of the regex escape for white space in RE2:
tab, newline, form feed, carriage return, space. -/
def isSpaceRE (c : Char) : Bool :=
  c = ' ' || c = '\t' || c = '\n' || c.toNat = 12 || c = '\r'

/-- Literal part of the canonical-link regex in scrapeGoogleSearchResults
(search.go line 69). -/
def canonicalLit : Str := "https://www.linkedin.com/in/".toList

/-- Character admitted by the bracket class of the canonical-link regex:
anything except the two query delimiters. -/
def nonDelim (c : Char) : Bool := !(c = '&' || c = '?')

/-- Match of the canonical-link regex anchored at the current position:
the literal, then a maximal nonempty run of non-delimiter characters
(the greedy bracket class). -/
def matchCanonAt (s : Str) : Option Str :=
  if canonicalLit.isPrefixOf s then
    let body := (s.drop canonicalLit.length).takeWhile nonDelim
    if body.isEmpty then none else some (canonicalLit ++ body)
  else none

/-- Leftmost match of the canonical-link regex
(regexp.FindStringSubmatch, search.go line 70): first position, scanning
left to right, at which the anchored match succeeds. -/
def canonicalMatch : Str → Option Str
  | [] => none
  | c :: rest =>
    match matchCanonAt (c :: rest) with
    | some t => some t
    | none => canonicalMatch rest

/-- Match of the experience regex anchored at the current position
(search.go line 33): a maximal nonempty digit run (the captured group),
one or more white-space characters, then the literal word year (the
optional plural suffix never affects success).  Digits and white space
are disjoint character classes, so the maximal-run reading coincides with
the backtracking one. -/
def matchExpAt (s : Str) : Option Str :=
  let ds := s.takeWhile Char.isDigit
  if ds.isEmpty then none
  else
    let r1 := s.drop ds.length
    let sp := r1.takeWhile isSpaceRE
    if sp.isEmpty then none
    else if ("year".toList).isPrefixOf (r1.drop sp.length) then some ds
    else none

/-- Leftmost match of the experience regex: digits of the captured group. -/
def findExperience : Str → Option Str
  | [] => none
  | c :: rest =>
    match matchExpAt (c :: rest) with
    | some ds => some ds
    | none => findExperience rest

/-- Failure cases of parseExperience (search.go lines 156-167). -/
inductive ExpErr
  | notFound
  | range
deriving DecidableEq

/-- Largest value strconv.Atoi accepts on a 64-bit platform. -/
def maxInt64 : Nat := 2 ^ 63 - 1

/-- Numeric value of a digit run. -/
def digitsToNat (ds : Str) : Nat :=
  ds.foldl (fun a c => a * 10 + (c.toNat - 48)) 0

/-- parseExperience (search.go lines 156-167): regex search for the
experience shape, then strconv.Atoi on the captured digits; out-of-range
digits make Atoi fail, and the function then returns zero together with
the error, exactly as on a failed search. -/
def parseExperience (s : Str) : Int × Option ExpErr :=
  match findExperience s with
  | none => (0, some ExpErr.notFound)
  | some ds =>
    if digitsToNat ds ≤ maxInt64 then (Int.ofNat (digitsToNat ds), none)
    else (0, some ExpErr.range)

/-- Candidate record (search.go lines 39-45), field for field. -/
structure Candidate where
  name : Str
  email : Str
  phone : Str
  profileURL : Str
  experience : Int
deriving DecidableEq

/-- One result container matched by the .tF2Cxc selector, reduced to the
three queries the loop body performs on it: the href of the first profile
link (none when the selector finds no link), the text under the name
selector, and the snippet text. -/
structure Container where
  href : Option Str
  nameText : Str
  snippetText : Str
deriving DecidableEq

/-- Body of the Each loop of scrapeGoogleSearchResults
(search.go lines 61-94), together with the list of log calls it performs
(there are none: the parseExperience error is bound to the blank
identifier on line 84 and discarded).  Returns none when the container is
skipped. -/
def processContainerWithLog (fE fP : Str → Str) (c : Container) :
    Option Candidate × List Str :=
  match c.href with
  | none => (none, [])
  | some link =>
    match canonicalMatch link with
    | none => (none, [])
    | some url =>
      let nm := trimSpace c.nameText
      let email := fE c.snippetText
      let phone := fP c.snippetText
      let exp := (parseExperience c.snippetText).1
      (some { name := nm, email := email, phone := phone,
              profileURL := url, experience := exp }, [])

/-- scrapeGoogleSearchResults (search.go lines 58-97): the Each loop
appends one candidate per non-skipped container, in document order. -/
def scrapeGoogleSearchResults (fE fP : Str → Str) (cs : List Container) :
    List Candidate :=
  cs.filterMap (fun c => (processContainerWithLog fE fP c).1)

/-- Container that yields a record: it has a profile link and the link
contains a canonical match. -/
def wellFormedB (c : Container) : Bool :=
  match c.href with
  | none => false
  | some link => (canonicalMatch link).isSome

/-- Outcome of parsing the body of a 200 profile response
(goquery.NewDocumentFromReader, search.go line 132): either the parse
fails, or it yields a document reduced to the two queries performed on
it, the text under the public name selector and the whole rendered
markup. -/
inductive ProfileBody
  | parseErr
  | doc (nameText : Str) (html : Str)
deriving DecidableEq

/-- Environment of the single fetch attempt scrapeProfileDetails
performs: request creation failure, transport failure, or a response
with a status code and a body. -/
inductive ProfileEnv
  | reqErr
  | netErr
  | resp (status : Nat) (body : ProfileBody)
deriving DecidableEq

/-- Error values scrapeProfileDetails can return, one per return
statement (search.go lines 111, 120, 127, 129, 134). -/
inductive ProfErr
  | createFailed
  | fetchFailed
  | blocked
  | badStatus (code : Nat)
  | parseFailed
deriving DecidableEq

/-- Zero-value Candidate with only ProfileURL set, as built by the first
two lines of scrapeProfileDetails (search.go lines 101-102). -/
def emptyCandidate (url : Str) : Candidate :=
  { name := [], email := [], phone := [], profileURL := url, experience := 0 }

/-- scrapeProfileDetails (search.go lines 100-147).  The random pacing
sleep and the proxy-client choice are pure side effects with no
data-flow into the result and are not represented.  The status check
runs before body parsing, 429 and 302 map to the distinct blocked
error, any other non-200 to a status error; on a parsed 200 body the
name is trimmed from the profile selector text and email and phone are
the regex extractions over the whole markup. -/
def scrapeProfileDetails (fE fP : Str → Str) (profileURL : Str)
    (env : ProfileEnv) : Candidate × Option ProfErr :=
  let candidate := emptyCandidate profileURL
  match env with
  | ProfileEnv.reqErr => (candidate, some ProfErr.createFailed)
  | ProfileEnv.netErr => (candidate, some ProfErr.fetchFailed)
  | ProfileEnv.resp status body =>
    if status ≠ 200 then
      if status = 429 ∨ status = 302 then (candidate, some ProfErr.blocked)
      else (candidate, some (ProfErr.badStatus status))
    else
      match body with
      | ProfileBody.parseErr => (candidate, some ProfErr.parseFailed)
      | ProfileBody.doc nameText html =>
        ({ candidate with name := trimSpace nameText,
                          email := fE html, phone := fP html }, none)

/-- retryAttempts constant (search.go line 24). -/
def retryAttempts : Nat := 3

/-- retryDelay constant in seconds (search.go line 25). -/
def retryDelay : Nat := 5

/-- Environment of one attempt of the page-level retry loop in main:
request creation failure, transport failure, or a response whose body
would parse to the given container list (none when the HTML parse would
fail). -/
inductive PageAttempt
  | reqErr
  | netErr
  | resp (status : Nat) (content : Option (List Container))
deriving DecidableEq

/-- Response held by the resp variable of main after the loop; bodyClosed
records whether resp.Body.Close() already ran (line 289). -/
structure StoredResp where
  status : Nat
  content : Option (List Container)
  bodyClosed : Bool
deriving DecidableEq

/-- State of the mutable resp and err variables of main (lines 268-269)
together with the sequence of retry sleeps performed, each entry being
the constant delay slept in seconds. -/
structure LoopState where
  resp : Option StoredResp
  err : Bool
  sleeps : List Nat
deriving DecidableEq

/-- Page-level retry loop of main (search.go lines 272-294), one list
entry per remaining attempt.  Request creation failure logs and
continues, leaving resp and err untouched; transport failure sets err,
clears resp, sleeps the fixed delay and continues; a non-200 status
stores the response, closes its body, clears err, sleeps the fixed
delay and continues; a 200 status stores the open response, clears err
and breaks. -/
def retryLoop : List PageAttempt → LoopState → LoopState
  | [], s => s
  | a :: rest, s =>
    match a with
    | PageAttempt.reqErr => retryLoop rest s
    | PageAttempt.netErr =>
      retryLoop rest { resp := none, err := true, sleeps := s.sleeps ++ [retryDelay] }
    | PageAttempt.resp st ct =>
      if st = 200 then
        { resp := some { status := st, content := ct, bodyClosed := false },
          err := false, sleeps := s.sleeps }
      else
        retryLoop rest
          { resp := some { status := st, content := ct, bodyClosed := true },
            err := false, sleeps := s.sleeps ++ [retryDelay] }

/-- Full fetch of one page: at most retryAttempts attempts starting from
zeroed resp and err variables. -/
def fetchPage (attempts : List PageAttempt) : LoopState :=
  retryLoop (attempts.take retryAttempts) { resp := none, err := false, sleeps := [] }

/-- What main does with one page after the retry loop
(search.go lines 295-311). -/
inductive PageOutcome
  | fetchFailed
  | nilRespCrash
  | parseFailed
  | scraped (cands : List Candidate)
deriving DecidableEq

/-- Post-loop handling in main: only err is consulted to decide that the
fetch failed (line 295); otherwise the body of the stored response is
handed to goquery.NewDocumentFromReader (line 300), which fails on a
closed or unparsable body, and on success the containers are extracted.
A nil resp with nil err (all attempts failed at request creation) would
dereference a nil pointer. -/
def pageOutcome (fE fP : Str → Str) (attempts : List PageAttempt) : PageOutcome :=
  let s := fetchPage attempts
  if s.err then PageOutcome.fetchFailed
  else
    match s.resp with
    | none => PageOutcome.nilRespCrash
    | some r =>
      if r.bodyClosed then PageOutcome.parseFailed
      else
        match r.content with
        | none => PageOutcome.parseFailed
        | some cs => PageOutcome.scraped (scrapeGoogleSearchResults fE fP cs)

/-- Per-candidate enrichment step in main (search.go lines 314-326): on
error the candidate is written back unchanged, on success only Name,
Email and Phone are overwritten from the detailed candidate. -/
def enrichStep (fE fP : Str → Str) (cand : Candidate) (env : ProfileEnv) : Candidate :=
  let r := scrapeProfileDetails fE fP cand.profileURL env
  match r.2 with
  | some _ => cand
  | none => { cand with name := r.1.name, email := r.1.email, phone := r.1.phone }

/-- Membership test used by the quoting rule of the CSV writer. -/
def containsChar (f : Str) (c : Char) : Bool := f.any (fun x => x == c)

/-- fieldNeedsQuotes of encoding/csv with the default comma: empty fields
are bare; a field is quoted when it is the two-character sequence
backslash dot, contains the comma, a double quote, a carriage return or
a newline, or starts with white space. -/
def fieldNeedsQuotes (f : Str) : Bool :=
  match f with
  | [] => false
  | c0 :: rest =>
    (c0 :: rest) == ['\\', '.'] || containsChar (c0 :: rest) ',' ||
    containsChar (c0 :: rest) '"' || containsChar (c0 :: rest) '\r' ||
    containsChar (c0 :: rest) '\n' || isGoSpace c0

/-- Body of a quoted CSV field: double quotes are doubled, carriage
returns and newlines are written verbatim (UseCRLF is false). -/
def escapeQuoted : Str → Str
  | [] => []
  | c :: cs => if c = '"' then '"' :: '"' :: escapeQuoted cs else c :: escapeQuoted cs

/-- One field as the csv.Writer of writeToCSV renders it. -/
def encodeField (f : Str) : Str :=
  if fieldNeedsQuotes f then '"' :: (escapeQuoted f ++ ['"']) else f

/-- Fields of one record joined with commas (csv.Writer writes the comma
before every field but the first). -/
def encodeFields : List Str → Str
  | [] => []
  | [f] => encodeField f
  | f :: f2 :: fs => encodeField f ++ ',' :: encodeFields (f2 :: fs)

/-- Records each terminated by the newline the writer emits
(UseCRLF is false, so the terminator is a single newline). -/
def encodeRows : List (List Str) → Str
  | [] => []
  | r :: rs => (encodeFields r ++ ['\n']) ++ encodeRows rs

/-- Header row written by writeToCSV (search.go line 213). -/
def headerRow : List Str :=
  ["Name".toList, "Email".toList, "Phone".toList, "Profile URL".toList,
   "Experience".toList]

/-- Decimal rendering of the experience field (strconv.Itoa,
search.go line 225). -/
def itoa (n : Int) : Str := (toString n).toList

/-- Data row written for one candidate (search.go lines 220-226). -/
def candidateRow (c : Candidate) : List Str :=
  [c.name, c.email, c.phone, c.profileURL, itoa c.experience]

/-- writeToCSV (search.go lines 202-233) as the text it writes: header
row then one row per candidate, in order. -/
def writeToCSV (cands : List Candidate) : Str :=
  encodeRows (headerRow :: cands.map candidateRow)

/-- Modelled from the spec: the re-parsing side of the round-trip
property of section 8 (the repository contains no reader, only the
writer), as a standard reader of the comma-delimited, double-quote
escaped format the writer produces.  Here: body of a quoted field after
its opening quote; a doubled quote stands for one literal quote, a
single quote closes the field. -/
def parseQuoted : Str → Option (Str × Str)
  | [] => none
  | c :: cs =>
    if c = '"' then
      match cs with
      | [] => some ([], [])
      | c2 :: cs2 =>
        if c2 = '"' then
          match parseQuoted cs2 with
          | none => none
          | some (f, r) => some ('"' :: f, r)
        else some ([], cs)
    else
      match parseQuoted cs with
      | none => none
      | some (f, r) => some (c :: f, r)

/-- Modelled from the spec: bare field, read up to the next comma or
newline. -/
def parseUnquoted : Str → Str × Str
  | [] => ([], [])
  | c :: cs =>
    if c = ',' ∨ c = '\n' then ([], c :: cs)
    else
      let p := parseUnquoted cs
      (c :: p.1, p.2)

/-- Modelled from the spec: one field, quoted when it opens with a
double quote, bare otherwise. -/
def parseField : Str → Option (Str × Str)
  | [] => some ([], [])
  | c :: cs => if c = '"' then parseQuoted cs else some (parseUnquoted (c :: cs))

/-- Modelled from the spec: one newline-terminated record, fuelled by
the field count. -/
def parseRowF : Nat → Str → Option (List Str × Str)
  | 0, _ => none
  | fuel + 1, s =>
    match parseField s with
    | none => none
    | some (f, rest) =>
      match rest with
      | [] => none
      | c :: r =>
        if c = ',' then
          match parseRowF fuel r with
          | none => none
          | some (fs, r2) => some (f :: fs, r2)
        else if c = '\n' then some ([f], r)
        else none

/-- Modelled from the spec: all records of the file, fuelled by the
record count; the row-level fuel is taken from the remaining input,
which always bounds the field count. -/
def parseRowsF : Nat → Str → Option (List (List Str))
  | 0, s => if s = [] then some [] else none
  | fuel + 1, s =>
    if s = [] then some []
    else
      match parseRowF (s.length + 1) s with
      | none => none
      | some (row, rest) =>
        match parseRowsF fuel rest with
        | none => none
        | some rs => some (row :: rs)

/-- Modelled from the spec: whole-file parse. -/
def csvParse (s : Str) : Option (List (List Str)) :=
  parseRowsF (s.length + 1) s

/-- C1 counterexample: the claim quantifies over page-level fetches as
well, but the page-level retry loop of main has no 429/302 case: with a
response of status 429 on the first attempt it sleeps the fixed delay
and retries, and the second attempt succeeds with status 200 — one
retry was performed and no blocked error is surfaced, contradicting
both the zero-retries and the blocked-error part of the claim. -/
theorem C1_counterexample :
    fetchPage [PageAttempt.resp 429 (some []), PageAttempt.resp 200 (some []),
               PageAttempt.resp 200 (some [])] =
      { resp := some { status := 200, content := some [], bodyClosed := false },
        err := false, sleeps := [retryDelay] } := by decide

/-- C1 amended: a profile-level fetch with status 429 or 302 returns the
distinct blocked error immediately with no retry; the page-level loop
instead treats such a status like any other non-200 response: it closes
the body, sleeps the fixed delay and moves on to the next attempt. -/
theorem C1_amended (fE fP : Str → Str) (url : Str) (st : Nat) (body : ProfileBody)
    (h : st = 429 ∨ st = 302) :
    (scrapeProfileDetails fE fP url (ProfileEnv.resp st body)).2 = some ProfErr.blocked ∧
    ∀ (ct : Option (List Container)) (rest : List PageAttempt) (s : LoopState),
      retryLoop (PageAttempt.resp st ct :: rest) s =
        retryLoop rest
          { resp := some { status := st, content := ct, bodyClosed := true },
            err := false, sleeps := s.sleeps ++ [retryDelay] } := by
  have hne : st ≠ 200 := by rcases h with rfl | rfl <;> decide
  constructor
  · simp [scrapeProfileDetails, hne, h]
  · intro ct rest s
    simp [retryLoop, hne]

/-- C1 amended, witness at status 429. -/
theorem C1_amended_witness :
    (scrapeProfileDetails (fun _ => []) (fun _ => []) ("u".toList)
        (ProfileEnv.resp 429 ProfileBody.parseErr)).2 = some ProfErr.blocked ∧
    retryLoop [PageAttempt.resp 429 (some [])]
        { resp := none, err := false, sleeps := [] } =
      retryLoop []
        { resp := some { status := 429, content := some [], bodyClosed := true },
          err := false, sleeps := [retryDelay] } :=
  ⟨(C1_amended (fun _ => []) (fun _ => []) ("u".toList) 429 ProfileBody.parseErr
      (Or.inl rfl)).1,
   (C1_amended (fun _ => []) (fun _ => []) ("u".toList) 429 ProfileBody.parseErr
      (Or.inl rfl)).2 (some []) [] { resp := none, err := false, sleeps := [] }⟩

/-- C2: evaluation at the failing input.  When all three attempts return
status 503, the post-loop check of main sees err = nil (err only
records transport failures), so no final fetch failure is surfaced;
main falls through and hands the already-closed response body to the
HTML parser, and the page is skipped only because that parse fails. -/
theorem C2_status_exhaustion_eval :
    pageOutcome (fun _ => []) (fun _ => [])
        [PageAttempt.resp 503 (some []), PageAttempt.resp 503 (some []),
         PageAttempt.resp 503 (some [])] = PageOutcome.parseFailed ∧
    (fetchPage [PageAttempt.resp 503 (some []), PageAttempt.resp 503 (some []),
                PageAttempt.resp 503 (some [])]).err = false := by
  constructor <;> decide

/-- C5: with attempts answering 503, 503 and then 200, the page fetch
returns the open 200 response of the third attempt with no error,
having slept the fixed constant delay exactly twice. -/
theorem C5_retry_503_503_200 :
    fetchPage [PageAttempt.resp 503 (some []), PageAttempt.resp 503 (some []),
               PageAttempt.resp 200 (some [])] =
      { resp := some { status := 200, content := some [], bodyClosed := false },
        err := false, sleeps := [retryDelay, retryDelay] } := by decide

/-- C6: when profile enrichment succeeds, only name, email and phone are
overwritten with the enriched values while profileURL and experience
keep their page-level values; when it fails, the candidate is written
back unchanged. -/
theorem C6_enrichment_frame (fE fP : Str → Str) (cand : Candidate) (env : ProfileEnv) :
    ((scrapeProfileDetails fE fP cand.profileURL env).2 = none →
        (enrichStep fE fP cand env).profileURL = cand.profileURL ∧
        (enrichStep fE fP cand env).experience = cand.experience ∧
        (enrichStep fE fP cand env).name =
          (scrapeProfileDetails fE fP cand.profileURL env).1.name ∧
        (enrichStep fE fP cand env).email =
          (scrapeProfileDetails fE fP cand.profileURL env).1.email ∧
        (enrichStep fE fP cand env).phone =
          (scrapeProfileDetails fE fP cand.profileURL env).1.phone) ∧
    ((scrapeProfileDetails fE fP cand.profileURL env).2 ≠ none →
        enrichStep fE fP cand env = cand) := by
  constructor
  · intro h
    simp [enrichStep, h]
  · intro h
    cases hr : (scrapeProfileDetails fE fP cand.profileURL env).2 with
    | none => exact absurd hr h
    | some e => simp [enrichStep, hr]

/-- C6 witness: a concrete candidate enriched from a parsed 200 profile
page, and the same candidate left unchanged by a transport failure. -/
theorem C6_enrichment_frame_witness :
    ((enrichStep (fun _ => []) (fun _ => [])
        { name := "a".toList, email := "b".toList, phone := "c".toList,
          profileURL := "u".toList, experience := 3 }
        (ProfileEnv.resp 200 (ProfileBody.doc ("N".toList) ("H".toList)))).profileURL =
          "u".toList ∧
     (enrichStep (fun _ => []) (fun _ => [])
        { name := "a".toList, email := "b".toList, phone := "c".toList,
          profileURL := "u".toList, experience := 3 }
        (ProfileEnv.resp 200 (ProfileBody.doc ("N".toList) ("H".toList)))).experience = 3 ∧
     (enrichStep (fun _ => []) (fun _ => [])
        { name := "a".toList, email := "b".toList, phone := "c".toList,
          profileURL := "u".toList, experience := 3 }
        (ProfileEnv.resp 200 (ProfileBody.doc ("N".toList) ("H".toList)))).name =
       (scrapeProfileDetails (fun _ => []) (fun _ => []) ("u".toList)
          (ProfileEnv.resp 200 (ProfileBody.doc ("N".toList) ("H".toList)))).1.name ∧
     (enrichStep (fun _ => []) (fun _ => [])
        { name := "a".toList, email := "b".toList, phone := "c".toList,
          profileURL := "u".toList, experience := 3 }
        (ProfileEnv.resp 200 (ProfileBody.doc ("N".toList) ("H".toList)))).email =
       (scrapeProfileDetails (fun _ => []) (fun _ => []) ("u".toList)
          (ProfileEnv.resp 200 (ProfileBody.doc ("N".toList) ("H".toList)))).1.email ∧
     (enrichStep (fun _ => []) (fun _ => [])
        { name := "a".toList, email := "b".toList, phone := "c".toList,
          profileURL := "u".toList, experience := 3 }
        (ProfileEnv.resp 200 (ProfileBody.doc ("N".toList) ("H".toList)))).phone =
       (scrapeProfileDetails (fun _ => []) (fun _ => []) ("u".toList)
          (ProfileEnv.resp 200 (ProfileBody.doc ("N".toList) ("H".toList)))).1.phone) ∧
    enrichStep (fun _ => []) (fun _ => [])
        { name := "a".toList, email := "b".toList, phone := "c".toList,
          profileURL := "u".toList, experience := 3 } ProfileEnv.netErr =
      { name := "a".toList, email := "b".toList, phone := "c".toList,
        profileURL := "u".toList, experience := 3 } :=
  ⟨(C6_enrichment_frame (fun _ => []) (fun _ => [])
      { name := "a".toList, email := "b".toList, phone := "c".toList,
        profileURL := "u".toList, experience := 3 }
      (ProfileEnv.resp 200 (ProfileBody.doc ("N".toList) ("H".toList)))).1 (by decide),
   (C6_enrichment_frame (fun _ => []) (fun _ => [])
      { name := "a".toList, email := "b".toList, phone := "c".toList,
        profileURL := "u".toList, experience := 3 } ProfileEnv.netErr).2 (by decide)⟩

/-- C10: on every error path of scrapeProfileDetails the returned
candidate carries the input URL in profileURL and zero values in every
other field. -/
theorem C10_error_default (fE fP : Str → Str) (url : Str) (env : ProfileEnv)
    (e : ProfErr) (c : Candidate)
    (h : scrapeProfileDetails fE fP url env = (c, some e)) :
    c.profileURL = url ∧ c.name = [] ∧ c.email = [] ∧ c.phone = [] ∧
    c.experience = 0 := by
  have hc : c = emptyCandidate url := by
    cases env with
    | reqErr =>
      simp only [scrapeProfileDetails, Prod.mk.injEq] at h
      exact h.1.symm
    | netErr =>
      simp only [scrapeProfileDetails, Prod.mk.injEq] at h
      exact h.1.symm
    | resp status body =>
      simp only [scrapeProfileDetails] at h
      split at h
      · split at h <;> · simp only [Prod.mk.injEq] at h; exact h.1.symm
      · cases body with
        | parseErr =>
          simp only [Prod.mk.injEq] at h
          exact h.1.symm
        | doc nameText html =>
          simp only [Prod.mk.injEq] at h
          exact absurd h.2 (by simp)
  subst hc
  simp [emptyCandidate]

/-- C10 witness at a transport failure. -/
theorem C10_error_default_witness :
    (emptyCandidate ("u".toList)).profileURL = "u".toList ∧
    (emptyCandidate ("u".toList)).name = [] ∧
    (emptyCandidate ("u".toList)).email = [] ∧
    (emptyCandidate ("u".toList)).phone = [] ∧
    (emptyCandidate ("u".toList)).experience = 0 :=
  C10_error_default (fun _ => []) (fun _ => []) ("u".toList) ProfileEnv.netErr
    ProfErr.fetchFailed (emptyCandidate ("u".toList)) rfl

theorem nonDelim_spec {c : Char} (h : nonDelim c = true) : c ≠ '&' ∧ c ≠ '?' := by
  simp only [nonDelim, Bool.not_eq_true', Bool.or_eq_false_iff, decide_eq_false_iff_not] at h
  exact h

theorem takeWhile_append_all {p : Char → Bool} :
    ∀ (l₁ l₂ : Str), (∀ a ∈ l₁, p a = true) →
      (l₁ ++ l₂).takeWhile p = l₁ ++ l₂.takeWhile p := by
  intro l₁
  induction l₁ with
  | nil => simp
  | cons a l ih =>
    intro l₂ h
    simp only [List.cons_append, List.takeWhile_cons, h a (by simp), if_true,
      ih l₂ (fun b hb => h b (by simp [hb]))]

theorem matchCanonAt_nil : matchCanonAt [] = none := rfl

theorem canonicalMatch_of_anchored {s t : Str} (h : matchCanonAt s = some t) :
    canonicalMatch s = some t := by
  cases s with
  | nil => rw [matchCanonAt_nil] at h; cases h
  | cons c rest => rw [canonicalMatch, h]

theorem matchCanonAt_lit (c0 : Char) (r0 : Str) (h : nonDelim c0 = true) :
    matchCanonAt (canonicalLit ++ c0 :: r0) =
      some (canonicalLit ++ (c0 :: r0).takeWhile nonDelim) := by
  have hp : canonicalLit.isPrefixOf (canonicalLit ++ c0 :: r0) = true :=
    List.isPrefixOf_iff_prefix.mpr (List.prefix_append _ _)
  simp only [matchCanonAt, hp, if_true, List.drop_left, List.takeWhile_cons, h,
    List.isEmpty_cons, if_false, Bool.false_eq_true]

theorem canonicalMatch_shape : ∀ {s t : Str}, canonicalMatch s = some t →
    ∃ body, t = canonicalLit ++ body ∧ ∀ c ∈ body, nonDelim c = true := by
  intro s
  induction s with
  | nil => intro t h; simp [canonicalMatch] at h
  | cons c rest ih =>
    intro t h
    rw [canonicalMatch] at h
    cases hm : matchCanonAt (c :: rest) with
    | none => rw [hm] at h; exact ih h
    | some u =>
      rw [hm] at h
      injection h with h
      subst h
      simp only [matchCanonAt] at hm
      split at hm
      · split at hm
        · cases hm
        · injection hm with hm
          exact ⟨_, hm.symm, fun ch hch => List.mem_takeWhile_imp hch⟩
      · cases hm

theorem parseExperience_nonneg (s : Str) : 0 ≤ (parseExperience s).1 := by
  unfold parseExperience
  cases findExperience s with
  | none => simp
  | some ds =>
    simp only
    split
    · exact Int.ofNat_nonneg _
    · simp

theorem processSome_eq (fE fP : Str → Str) (c : Container) :
    ((processContainerWithLog fE fP c).1).isSome = wellFormedB c := by
  unfold processContainerWithLog wellFormedB
  cases c.href with
  | none => simp
  | some link => cases hcm : canonicalMatch link <;> simp [hcm]

theorem filterMap_eq_filter_map {α β : Type} (f : α → Option β) (d : β) (l : List α) :
    l.filterMap f = (l.filter (fun a => (f a).isSome)).map (fun a => (f a).getD d) := by
  induction l with
  | nil => simp
  | cons a l ih =>
    cases hfa : f a with
    | none => simp [List.filterMap_cons, List.filter_cons, hfa, ih]
    | some b => simp [List.filterMap_cons, List.filter_cons, hfa, ih]

/-- C3: page-level extraction emits exactly the well-formed containers
(those whose profile link carries a canonical match), in document order;
a container with no profile link is skipped with no log output, and a
container whose name text is empty is still emitted, with an empty name
field. -/
theorem C3_extraction (fE fP : Str → Str) (cs : List Container) :
    scrapeGoogleSearchResults fE fP cs =
      (cs.filter wellFormedB).map
        (fun c => ((processContainerWithLog fE fP c).1).getD (emptyCandidate [])) ∧
    (scrapeGoogleSearchResults fE fP cs).length = (cs.filter wellFormedB).length ∧
    (∀ c : Container, c.href = none → processContainerWithLog fE fP c = (none, [])) ∧
    (∀ c : Container, wellFormedB c = true →
        ∃ cand, (processContainerWithLog fE fP c).1 = some cand ∧
          cand.name = trimSpace c.nameText) ∧
    (∀ c : Container, ∀ cand : Candidate, c.nameText = [] →
        (processContainerWithLog fE fP c).1 = some cand → cand.name = []) := by
  have hpred : (fun c => ((processContainerWithLog fE fP c).1).isSome) = wellFormedB :=
    funext (processSome_eq fE fP)
  have h1 : scrapeGoogleSearchResults fE fP cs =
      (cs.filter wellFormedB).map
        (fun c => ((processContainerWithLog fE fP c).1).getD (emptyCandidate [])) := by
    rw [scrapeGoogleSearchResults,
      filterMap_eq_filter_map (fun c => (processContainerWithLog fE fP c).1)
        (emptyCandidate []), hpred]
  refine ⟨h1, by rw [h1, List.length_map], ?_, ?_, ?_⟩
  · intro c hc
    simp [processContainerWithLog, hc]
  · intro c hw
    unfold wellFormedB at hw
    cases hh : c.href with
    | none => rw [hh] at hw; cases hw
    | some link =>
      simp only [hh] at hw
      cases hcm : canonicalMatch link with
      | none => rw [hcm] at hw; cases hw
      | some url =>
        refine ⟨{ name := trimSpace c.nameText, email := fE c.snippetText,
                  phone := fP c.snippetText, profileURL := url,
                  experience := (parseExperience c.snippetText).1 }, ?_, rfl⟩
        simp [processContainerWithLog, hh, hcm]
  · intro c cand hname hc
    cases hh : c.href with
    | none => simp [processContainerWithLog, hh] at hc
    | some link =>
      cases hcm : canonicalMatch link with
      | none => simp [processContainerWithLog, hh, hcm] at hc
      | some url =>
        simp only [processContainerWithLog, hh, hcm, Option.some.injEq] at hc
        rw [← hc, hname]
        rfl

/-- C3 witness: one malformed container (no link) is skipped, one
well-formed container with empty name text is emitted. -/
theorem C3_extraction_witness :
    (scrapeGoogleSearchResults (fun _ => []) (fun _ => [])
        [{ href := some ("https://www.linkedin.com/in/x".toList), nameText := [],
           snippetText := [] },
         { href := none, nameText := "Bob".toList, snippetText := [] }]).length =
      ([({ href := some ("https://www.linkedin.com/in/x".toList), nameText := [],
           snippetText := [] } : Container),
        { href := none, nameText := "Bob".toList, snippetText := [] }].filter
          wellFormedB).length ∧
    processContainerWithLog (fun _ => []) (fun _ => [])
        { href := none, nameText := "Bob".toList, snippetText := [] } = (none, []) ∧
    (∃ cand, (processContainerWithLog (fun _ => []) (fun _ => [])
        { href := some ("https://www.linkedin.com/in/x".toList), nameText := [],
          snippetText := [] }).1 = some cand ∧
      cand.name = trimSpace ([] : Str)) :=
  ⟨(C3_extraction (fun _ => []) (fun _ => []) _).2.1,
   (C3_extraction (fun _ => []) (fun _ => []) []).2.2.1
     { href := none, nameText := "Bob".toList, snippetText := [] } rfl,
   (C3_extraction (fun _ => []) (fun _ => []) []).2.2.2.1
     { href := some ("https://www.linkedin.com/in/x".toList), nameText := [],
       snippetText := [] } (by decide)⟩

/-- C4 counterexample: on the snippet with no numeric match the record
is emitted with experience zero and the parse error is present in the
return of parseExperience, but the loop body performs no log call at
all — its log trace is empty, refuting the claim that the parse
failure is logged (the error is bound to the blank identifier on
line 84 and dropped). -/
theorem C4_counterexample :
    (processContainerWithLog (fun _ => []) (fun _ => [])
        { href := some ("https://www.linkedin.com/in/alice".toList),
          nameText := "Alice".toList, snippetText := "five years".toList }).2 = [] ∧
    (processContainerWithLog (fun _ => []) (fun _ => [])
        { href := some ("https://www.linkedin.com/in/alice".toList),
          nameText := "Alice".toList, snippetText := "five years".toList }).1 =
      some { name := "Alice".toList, email := [], phone := [],
             profileURL := "https://www.linkedin.com/in/alice".toList,
             experience := 0 } ∧
    (parseExperience ("five years".toList)).2 = some ExpErr.notFound := by
  refine ⟨by decide, by decide, by decide⟩

/-- C4 amended: for a container whose link matches, a snippet with a
numeric experience match within the integer range yields that integer
in the emitted record; a snippet with no match yields the zero default,
the record is still emitted, and the parse failure is silently
discarded rather than logged or thrown: parseExperience does return the
error, but the loop body ignores it and performs no log call, so the
log trace of the container is empty. -/
theorem C4_amended (fE fP : Str → Str) (c : Container) (link url : Str)
    (hh : c.href = some link) (hcm : canonicalMatch link = some url) :
    (∀ ds : Str, findExperience c.snippetText = some ds →
        digitsToNat ds ≤ maxInt64 →
        ∃ cand, (processContainerWithLog fE fP c).1 = some cand ∧
          cand.experience = Int.ofNat (digitsToNat ds)) ∧
    (findExperience c.snippetText = none →
        ∃ cand, (processContainerWithLog fE fP c).1 = some cand ∧
          cand.experience = 0 ∧
          (parseExperience c.snippetText).2 = some ExpErr.notFound) ∧
    (processContainerWithLog fE fP c).2 = [] := by
  refine ⟨?_, ?_, ?_⟩
  · intro ds hds hle
    refine ⟨{ name := trimSpace c.nameText, email := fE c.snippetText,
              phone := fP c.snippetText, profileURL := url,
              experience := (parseExperience c.snippetText).1 }, ?_, ?_⟩
    · simp [processContainerWithLog, hh, hcm]
    · simp [parseExperience, hds, hle]
  · intro hds
    refine ⟨{ name := trimSpace c.nameText, email := fE c.snippetText,
              phone := fP c.snippetText, profileURL := url,
              experience := (parseExperience c.snippetText).1 }, ?_, ?_, ?_⟩
    · simp [processContainerWithLog, hh, hcm]
    · simp [parseExperience, hds]
    · simp [parseExperience, hds]
  · simp [processContainerWithLog, hh, hcm]

/-- C4 amended, witness: the matching snippet and the non-matching one. -/
theorem C4_amended_witness :
    (∃ cand, (processContainerWithLog (fun _ => []) (fun _ => [])
        { href := some ("https://www.linkedin.com/in/a".toList),
          nameText := [], snippetText := "5 years".toList }).1 = some cand ∧
      cand.experience = Int.ofNat (digitsToNat ['5'])) ∧
    (∃ cand, (processContainerWithLog (fun _ => []) (fun _ => [])
        { href := some ("https://www.linkedin.com/in/a".toList),
          nameText := [], snippetText := "five years".toList }).1 = some cand ∧
      cand.experience = 0 ∧
      (parseExperience ("five years".toList)).2 = some ExpErr.notFound) ∧
    (processContainerWithLog (fun _ => []) (fun _ => [])
        { href := some ("https://www.linkedin.com/in/a".toList),
          nameText := [], snippetText := "5 years".toList }).2 = [] :=
  ⟨(C4_amended (fun _ => []) (fun _ => [])
      { href := some ("https://www.linkedin.com/in/a".toList),
        nameText := [], snippetText := "5 years".toList }
      ("https://www.linkedin.com/in/a".toList)
      ("https://www.linkedin.com/in/a".toList) rfl (by decide)).1 ['5']
      (by decide) (by decide),
   (C4_amended (fun _ => []) (fun _ => [])
      { href := some ("https://www.linkedin.com/in/a".toList),
        nameText := [], snippetText := "five years".toList }
      ("https://www.linkedin.com/in/a".toList)
      ("https://www.linkedin.com/in/a".toList) rfl (by decide)).2.1 (by decide),
   (C4_amended (fun _ => []) (fun _ => [])
      { href := some ("https://www.linkedin.com/in/a".toList),
        nameText := [], snippetText := "5 years".toList }
      ("https://www.linkedin.com/in/a".toList)
      ("https://www.linkedin.com/in/a".toList) rfl (by decide)).2.2⟩

/-- C7: a matched profile link is stored cut at the first query
delimiter: when the link is the canonical literal followed by at least
one non-delimiter character, the emitted record stores exactly the
prefix of the link up to (excluding) the first ampersand or question
mark; and when the link has no canonical match at all, the container is
skipped. -/
theorem C7_canonical_link (fE fP : Str → Str) (c : Container) :
    (∀ (c0 : Char) (r0 : Str), c.href = some (canonicalLit ++ c0 :: r0) →
        nonDelim c0 = true →
        ∃ cand, (processContainerWithLog fE fP c).1 = some cand ∧
          cand.profileURL = (canonicalLit ++ c0 :: r0).takeWhile nonDelim) ∧
    (∀ link : Str, c.href = some link → canonicalMatch link = none →
        (processContainerWithLog fE fP c).1 = none) := by
  constructor
  · intro c0 r0 hh hnd
    have hcm := canonicalMatch_of_anchored (matchCanonAt_lit c0 r0 hnd)
    refine ⟨{ name := trimSpace c.nameText, email := fE c.snippetText,
              phone := fP c.snippetText,
              profileURL := canonicalLit ++ (c0 :: r0).takeWhile nonDelim,
              experience := (parseExperience c.snippetText).1 }, ?_, ?_⟩
    · simp [processContainerWithLog, hh, hcm]
    · exact (takeWhile_append_all canonicalLit (c0 :: r0) (by decide)).symm
  · intro link hh hcm
    simp [processContainerWithLog, hh, hcm]

/-- C7 witness: a link carrying a query string is stored cut at the
question mark; a foreign link is skipped. -/
theorem C7_canonical_link_witness :
    (∃ cand, (processContainerWithLog (fun _ => []) (fun _ => [])
        { href := some (canonicalLit ++ 'x' :: "?q=1".toList), nameText := [],
          snippetText := [] }).1 = some cand ∧
      cand.profileURL = (canonicalLit ++ 'x' :: "?q=1".toList).takeWhile nonDelim) ∧
    (processContainerWithLog (fun _ => []) (fun _ => [])
        { href := some ("http://x".toList), nameText := [], snippetText := [] }).1 =
      none :=
  ⟨(C7_canonical_link (fun _ => []) (fun _ => [])
      { href := some (canonicalLit ++ 'x' :: "?q=1".toList), nameText := [],
        snippetText := [] }).1 'x' ("?q=1".toList) rfl (by decide),
   (C7_canonical_link (fun _ => []) (fun _ => [])
      { href := some ("http://x".toList), nameText := [], snippetText := [] }).2
      ("http://x".toList) rfl (by decide)⟩

/-- C9: every record emitted by page-level extraction has a profile URL
that begins with the canonical literal and contains no query delimiter,
and a non-negative experience value. -/
theorem C9_invariant (fE fP : Str → Str) (cs : List Container) (cand : Candidate)
    (h : cand ∈ scrapeGoogleSearchResults fE fP cs) :
    (∃ body, cand.profileURL = canonicalLit ++ body) ∧
    (∀ ch ∈ cand.profileURL, ch ≠ '&' ∧ ch ≠ '?') ∧
    0 ≤ cand.experience := by
  rw [scrapeGoogleSearchResults, List.mem_filterMap] at h
  obtain ⟨c, -, hc⟩ := h
  cases hh : c.href with
  | none => simp [processContainerWithLog, hh] at hc
  | some link =>
    cases hcm : canonicalMatch link with
    | none => simp [processContainerWithLog, hh, hcm] at hc
    | some url =>
      simp only [processContainerWithLog, hh, hcm, Option.some.injEq] at hc
      obtain ⟨body, hbody, hmem⟩ := canonicalMatch_shape hcm
      have hlit : ∀ ch ∈ canonicalLit, ch ≠ '&' ∧ ch ≠ '?' := by decide
      refine ⟨⟨body, ?_⟩, ?_, ?_⟩
      · rw [← hc, hbody]
      · intro ch hch
        rw [← hc] at hch
        simp only at hch
        rw [hbody] at hch
        rcases List.mem_append.mp hch with hch | hch
        · exact hlit ch hch
        · exact nonDelim_spec (hmem ch hch)
      · rw [← hc]
        exact parseExperience_nonneg c.snippetText

/-- C9 witness at one concrete well-formed container. -/
theorem C9_invariant_witness :
    (∃ body, ("https://www.linkedin.com/in/alice".toList : Str) =
      canonicalLit ++ body) ∧
    (∀ ch ∈ ("https://www.linkedin.com/in/alice".toList : Str),
      ch ≠ '&' ∧ ch ≠ '?') ∧
    (0 : Int) ≤ 1 :=
  C9_invariant (fun _ => []) (fun _ => [])
    [{ href := some ("https://www.linkedin.com/in/alice".toList),
       nameText := "A".toList, snippetText := "1 year".toList }]
    { name := "A".toList, email := [], phone := [],
      profileURL := "https://www.linkedin.com/in/alice".toList, experience := 1 }
    (by decide)

theorem parseQuoted_step (c : Char) (cs : Str) :
    parseQuoted (c :: cs) =
      if c = '"' then
        match cs with
        | [] => some ([], [])
        | c2 :: cs2 =>
          if c2 = '"' then
            match parseQuoted cs2 with
            | none => none
            | some (f, r) => some ('"' :: f, r)
          else some ([], cs)
      else
        match parseQuoted cs with
        | none => none
        | some (f, r) => some (c :: f, r) := by
  rw [parseQuoted.eq_def]
  rfl

theorem parseQuoted_other {c : Char} (h : c ≠ '"') (cs : Str) :
    parseQuoted (c :: cs) =
      match parseQuoted cs with
      | none => none
      | some (f, r) => some (c :: f, r) := by
  rw [parseQuoted_step, if_neg h]

theorem parseQuoted_qq (cs2 : Str) :
    parseQuoted ('"' :: '"' :: cs2) =
      match parseQuoted cs2 with
      | none => none
      | some (f, r) => some ('"' :: f, r) := by
  rw [parseQuoted_step]
  simp

theorem parseQuoted_close {d : Char} (h : d ≠ '"') (cs : Str) :
    parseQuoted ('"' :: d :: cs) = some ([], d :: cs) := by
  rw [parseQuoted_step]
  simp [h]

theorem escapeQuoted_quote (f : Str) :
    escapeQuoted ('"' :: f) = '"' :: '"' :: escapeQuoted f := by
  simp [escapeQuoted]

theorem escapeQuoted_other {c : Char} (h : c ≠ '"') (f : Str) :
    escapeQuoted (c :: f) = c :: escapeQuoted f := by
  simp [escapeQuoted, h]

theorem parseQuoted_escape (f : Str) : ∀ (d : Char) (rest : Str), d ≠ '"' →
    parseQuoted (escapeQuoted f ++ '"' :: d :: rest) = some (f, d :: rest) := by
  induction f with
  | nil =>
    intro d rest hd
    simpa [escapeQuoted] using parseQuoted_close hd rest
  | cons c f' ih =>
    intro d rest hd
    by_cases hc : c = '"'
    · subst hc
      rw [escapeQuoted_quote, List.cons_append, List.cons_append, parseQuoted_qq,
        ih d rest hd]
    · rw [escapeQuoted_other hc, List.cons_append, parseQuoted_other hc,
        ih d rest hd]

theorem parseUnquoted_id : ∀ (f : Str) (d : Char) (rest : Str),
    (d = ',' ∨ d = '\n') → (∀ ch ∈ f, ch ≠ ',' ∧ ch ≠ '\n') →
    parseUnquoted (f ++ d :: rest) = (f, d :: rest) := by
  intro f
  induction f with
  | nil => intro d rest hd _; simp [parseUnquoted, hd]
  | cons c f' ih =>
    intro d rest hd hf
    have hc := hf c (by simp)
    simp only [List.cons_append, parseUnquoted, List.append_eq]
    rw [if_neg (by push_neg; exact hc),
      ih d rest hd (fun ch hch => hf ch (by simp [hch]))]

theorem contains_false_spec {f : Str} {c : Char} (h : containsChar f c = false) :
    ∀ ch ∈ f, ch ≠ c := by
  intro ch hch heq
  subst heq
  have hm : containsChar f ch = true := by
    simp only [containsChar, List.any_eq_true, beq_iff_eq]
    exact ⟨ch, hch, rfl⟩
  rw [h] at hm
  cases hm

theorem fieldNeedsQuotes_false {f : Str} (h : fieldNeedsQuotes f = false) :
    ∀ ch ∈ f, ch ≠ ',' ∧ ch ≠ '"' ∧ ch ≠ '\n' := by
  cases f with
  | nil => intro ch hch; cases hch
  | cons c0 rest =>
    have hstep : fieldNeedsQuotes (c0 :: rest) =
        ((c0 :: rest) == ['\\', '.'] || containsChar (c0 :: rest) ',' ||
         containsChar (c0 :: rest) '"' || containsChar (c0 :: rest) '\r' ||
         containsChar (c0 :: rest) '\n' || isGoSpace c0) := rfl
    rw [hstep] at h
    obtain ⟨h04, h5⟩ := Bool.or_eq_false_iff.mp h
    obtain ⟨h03, h4⟩ := Bool.or_eq_false_iff.mp h04
    obtain ⟨h02, h3⟩ := Bool.or_eq_false_iff.mp h03
    obtain ⟨h01, h2⟩ := Bool.or_eq_false_iff.mp h02
    obtain ⟨h0, h1⟩ := Bool.or_eq_false_iff.mp h01
    intro ch hch
    exact ⟨contains_false_spec h1 ch hch, contains_false_spec h2 ch hch,
           contains_false_spec h4 ch hch⟩

theorem parseField_encode (f : Str) (d : Char) (rest : Str) (hd : d = ',' ∨ d = '\n') :
    parseField (encodeField f ++ d :: rest) = some (f, d :: rest) := by
  have hdq : d ≠ '"' := by rcases hd with rfl | rfl <;> decide
  cases hq : fieldNeedsQuotes f with
  | true =>
    have hsh : encodeField f ++ d :: rest =
        '"' :: (escapeQuoted f ++ '"' :: d :: rest) := by
      simp [encodeField, hq]
    rw [hsh]
    simp [parseField, parseQuoted_escape f d rest hdq]
  | false =>
    have hmem := fieldNeedsQuotes_false hq
    have hef : encodeField f = f := by simp [encodeField, hq]
    rw [hef]
    cases f with
    | nil => simp [parseField, hdq, parseUnquoted, hd]
    | cons c0 f' =>
      have hc0 := hmem c0 (by simp)
      simp only [List.cons_append, parseField]
      rw [if_neg hc0.2.1, ← List.cons_append,
        parseUnquoted_id (c0 :: f') d rest hd (fun ch hch =>
          ⟨(hmem ch hch).1, (hmem ch hch).2.2⟩)]

theorem encodeFields_len : ∀ (fields : List Str) (tail : Str), fields ≠ [] →
    fields.length ≤ (encodeFields fields ++ '\n' :: tail).length := by
  intro fields
  induction fields with
  | nil => intro tail h; cases h rfl
  | cons f fs ih =>
    intro tail h
    cases fs with
    | nil =>
      simp only [encodeFields, List.length_cons, List.length_append, List.length_nil]
      omega
    | cons f2 fs' =>
      have hrec := ih tail (by simp)
      simp only [encodeFields, List.cons_append, List.append_assoc,
        List.length_append, List.length_cons] at hrec ⊢
      omega

theorem parseRowF_encode : ∀ (fields : List Str) (fuel : Nat) (tail : Str),
    fields ≠ [] → fields.length ≤ fuel →
    parseRowF fuel (encodeFields fields ++ '\n' :: tail) = some (fields, tail) := by
  intro fields
  induction fields with
  | nil => intro fuel tail h _; cases h rfl
  | cons f fs ih =>
    intro fuel tail h hle
    cases fuel with
    | zero => simp at hle
    | succ fl =>
      cases fs with
      | nil =>
        have hpf := parseField_encode f '\n' tail (Or.inr rfl)
        simp only [encodeFields] at hpf ⊢
        simp [parseRowF, hpf]
      | cons f2 fs' =>
        have hpf := parseField_encode f ','
          (encodeFields (f2 :: fs') ++ '\n' :: tail) (Or.inl rfl)
        have hassoc : encodeFields (f :: f2 :: fs') ++ '\n' :: tail =
            encodeField f ++ ',' :: (encodeFields (f2 :: fs') ++ '\n' :: tail) := by
          simp [encodeFields]
        rw [hassoc]
        have hrec := ih fl tail (by simp) (by simp at hle ⊢; omega)
        simp [parseRowF, hpf, hrec]

theorem encodeRows_len : ∀ rows : List (List Str),
    rows.length ≤ (encodeRows rows).length := by
  intro rows
  induction rows with
  | nil => simp [encodeRows]
  | cons r rs ih =>
    simp only [encodeRows, List.length_append, List.length_cons, List.length_append]
    simp at ih ⊢
    omega

theorem parseRowsF_encode : ∀ (rows : List (List Str)) (fuel : Nat),
    (∀ r ∈ rows, r ≠ []) → rows.length ≤ fuel →
    parseRowsF fuel (encodeRows rows) = some rows := by
  intro rows
  induction rows with
  | nil => intro fuel _ _; cases fuel <;> simp [parseRowsF, encodeRows]
  | cons r rs ih =>
    intro fuel h hle
    cases fuel with
    | zero => simp at hle
    | succ fl =>
      have hs : encodeRows (r :: rs) = encodeFields r ++ '\n' :: encodeRows rs := by
        simp [encodeRows]
      have hne : encodeFields r ++ '\n' :: encodeRows rs ≠ [] := by simp
      have hlen : r.length ≤ (encodeFields r ++ '\n' :: encodeRows rs).length + 1 :=
        Nat.le_succ_of_le (encodeFields_len r (encodeRows rs) (h r (by simp)))
      have hrow := parseRowF_encode r
        ((encodeFields r ++ '\n' :: encodeRows rs).length + 1) (encodeRows rs)
        (h r (by simp)) hlen
      have hrec := ih fl (fun x hx => h x (by simp [hx])) (by simp at hle ⊢; omega)
      rw [hs]
      simp only [List.length_append, List.length_cons] at hrow
      simp [parseRowsF, hne, hrow, hrec]

/-- C8: serializing any candidate sequence yields the fixed header line
followed by one row per candidate with the experience as decimal text,
and re-parsing the serialized text recovers the header row plus exactly
one row per candidate with field values identical to those written. -/
theorem C8_csv_roundtrip (cands : List Candidate) :
    csvParse (writeToCSV cands) = some (headerRow :: cands.map candidateRow) ∧
    writeToCSV cands =
      ("Name,Email,Phone,Profile URL,Experience\n".toList) ++
        encodeRows (cands.map candidateRow) ∧
    (cands.map candidateRow).length = cands.length := by
  refine ⟨?_, ?_, by simp⟩
  · unfold csvParse writeToCSV
    apply parseRowsF_encode
    · intro r hr
      rcases List.mem_cons.mp hr with rfl | hr
      · simp [headerRow]
      · obtain ⟨c, -, rfl⟩ := List.mem_map.mp hr
        simp [candidateRow]
    · have := encodeRows_len (headerRow :: cands.map candidateRow)
      simp only [List.length_cons] at this ⊢
      omega
  · have hhdr : encodeFields headerRow ++ ['\n'] =
        "Name,Email,Phone,Profile URL,Experience\n".toList := by decide
    unfold writeToCSV
    rw [show encodeRows (headerRow :: cands.map candidateRow) =
        (encodeFields headerRow ++ ['\n']) ++ encodeRows (cands.map candidateRow)
      from rfl, hhdr]

